import Mathlib

/-!
Verification of the producer delivery-completion pipeline of a Kafka client
library.  The Lean definitions below are a shallow embedding of the Rust
sources (`src/config.rs`, `src/error.rs`, `src/client.rs`, `src/producer.rs`).
The native librdkafka engine is an external collaborator; its behaviour is
represented by explicit oracle parameters (`ConfOracle`, `TopicOracle`,
`ClientOracle`, and per-call oracle arguments), matching the interface
contract the library relies on.
-/

namespace RdKafka

/-! ## Association-list helpers

The heap of live `Box` allocations and the set of oneshot channels are
modelled as association lists keyed by `Nat` (addresses / channel ids). -/

/-- Look up the value stored at key `k` (first match). -/
def alookup {α : Type} : List (Nat × α) → Nat → Option α
  | [], _ => none
  | (k', v) :: t, k => if k' = k then some v else alookup t k

/-- Replace the value at key `k` by `v`; append the binding if `k` is absent. -/
def aset {α : Type} : List (Nat × α) → Nat → α → List (Nat × α)
  | [], k, v => [(k, v)]
  | (k', v') :: t, k, v => if k' = k then (k, v) :: t else (k', v') :: aset t k v

/-- Remove every binding whose key is `k` (freeing a heap allocation). -/
def aremove {α : Type} : List (Nat × α) → Nat → List (Nat × α)
  | [], _ => []
  | (k', v') :: t, k => if k' = k then aremove t k else (k', v') :: aremove t k

@[simp] theorem alookup_nil {α : Type} (k : Nat) : alookup ([] : List (Nat × α)) k = none := rfl

@[simp] theorem alookup_cons {α : Type} (k' k : Nat) (v : α) (t : List (Nat × α)) :
    alookup ((k', v) :: t) k = if k' = k then some v else alookup t k := rfl

@[simp] theorem aset_nil {α : Type} (k : Nat) (v : α) : aset ([] : List (Nat × α)) k v = [(k, v)] := rfl

@[simp] theorem aset_cons {α : Type} (k' k : Nat) (v' v : α) (t : List (Nat × α)) :
    aset ((k', v') :: t) k v = if k' = k then (k, v) :: t else (k', v') :: aset t k v := rfl

@[simp] theorem aremove_nil {α : Type} (k : Nat) : aremove ([] : List (Nat × α)) k = [] := rfl

@[simp] theorem aremove_cons {α : Type} (k' k : Nat) (v' : α) (t : List (Nat × α)) :
    aremove ((k', v') :: t) k = if k' = k then aremove t k else (k', v') :: aremove t k := rfl

theorem alookup_aset_self {α : Type} (l : List (Nat × α)) (k : Nat) (v : α) :
    alookup (aset l k v) k = some v := by
  induction l with
  | nil => simp
  | cons p t ih =>
    obtain ⟨k', v'⟩ := p
    by_cases h : k' = k <;> simp [h, ih]

theorem alookup_aremove_self {α : Type} (l : List (Nat × α)) (k : Nat) :
    alookup (aremove l k) k = none := by
  induction l with
  | nil => simp
  | cons p t ih =>
    obtain ⟨k', v'⟩ := p
    by_cases h : k' = k <;> simp [h, ih]

theorem aremove_of_forall_ne {α : Type} (l : List (Nat × α)) (k : Nat)
    (h : ∀ p ∈ l, p.1 ≠ k) : aremove l k = l := by
  induction l with
  | nil => simp
  | cons p t ih =>
    obtain ⟨k', v'⟩ := p
    have hk : k' ≠ k := h (k', v') (by simp)
    simp only [aremove_cons, if_neg hk]
    rw [ih (fun q hq => h q (by simp [hq]))]

/-! ## Token ranges and list utilities -/

/-- The list `[s, s+1, ..., s+n-1]` of consecutive identifiers. -/
def tokRange : Nat → Nat → List Nat
  | _, 0 => []
  | s, n + 1 => s :: tokRange (s + 1) n

@[simp] theorem tokRange_zero (s : Nat) : tokRange s 0 = [] := rfl

@[simp] theorem tokRange_succ (s n : Nat) : tokRange s (n + 1) = s :: tokRange (s + 1) n := rfl

theorem tokRange_append_last (n s : Nat) :
    tokRange s (n + 1) = tokRange s n ++ [s + n] := by
  induction n generalizing s with
  | zero => simp
  | succ m ih =>
    have h : s + 1 + m = s + (m + 1) := by omega
    rw [tokRange_succ s (m + 1), ih (s + 1), h, tokRange_succ s m, List.cons_append]

theorem mem_tokRange {x s n : Nat} : x ∈ tokRange s n ↔ s ≤ x ∧ x < s + n := by
  induction n generalizing s with
  | zero => simp
  | succ m ih =>
    simp only [tokRange_succ, List.mem_cons, ih]
    omega

theorem tokRange_length (s n : Nat) : (tokRange s n).length = n := by
  induction n generalizing s with
  | zero => rfl
  | succ m ih => simp [ih]

theorem tokRange_nodup (s n : Nat) : (tokRange s n).Nodup := by
  induction n generalizing s with
  | zero => simp
  | succ m ih =>
    refine List.nodup_cons.mpr ⟨?_, ih (s + 1)⟩
    intro hmem
    have := mem_tokRange.mp hmem
    omega

theorem tokRange_drop (k s n : Nat) :
    (tokRange s n).drop k = tokRange (s + k) (n - k) := by
  induction k generalizing s n with
  | zero => simp
  | succ j ih =>
    cases n with
    | zero => simp
    | succ m =>
      rw [tokRange_succ, List.drop_succ_cons, ih (s + 1) m]
      congr 1 <;> omega

/-- Total list indexing on delivery-status lists, defaulting to a zero record. -/
def concatAll {α : Type} : List (List α) → List α
  | [] => []
  | l :: ls => l ++ concatAll ls

@[simp] theorem concatAll_nil {α : Type} : concatAll ([] : List (List α)) = [] := rfl

@[simp] theorem concatAll_cons {α : Type} (l : List α) (ls : List (List α)) :
    concatAll (l :: ls) = l ++ concatAll ls := rfl

/-! ## Error type (`src/error.rs`)

`ConfRes` (`rd_kafka_conf_res_t`) and `RespError` (`rd_kafka_resp_err_t`) are
C enums; they are modelled as `Int` with `0` standing for
`RD_KAFKA_CONF_OK` / `RD_KAFKA_RESP_ERR_NO_ERROR`, so `IsError` is `≠ 0`. -/

/-- The library error enum, mirroring `enum Error` in `src/error.rs`.
`Nul` carries the offending string (the payload of `std::ffi::NulError`). -/
inductive Error : Type
  | Config : Int × String × String × String → Error
  | ConsumerCreation : String → Error
  | ClientCreation : String → Error
  | MessageConsumption : Int → Error
  | MessageProduction : Int → Error
  | Subscription : String → Error
  | TopicName : String → Error
  | Nul : String → Error
deriving DecidableEq, Repr

/-- The `IsError` predicate of `src/error.rs`: a result code is an error
iff it differs from the zero (OK) enum value. -/
def respIsError (e : Int) : Bool := e != 0

/-- `CString::new` fails exactly when the string contains an embedded NUL. -/
def hasNul (s : String) : Bool := s.data.any fun c => decide (c = Char.ofNat 0)

/-! ## Configuration builder (`src/config.rs`) -/

/-- Modelled from the spec: behaviour of the native `rd_kafka_conf_set` /
`rd_kafka_topic_conf_set` entry points, which are external to this
repository.  `retCode k v` is the `rd_kafka_conf_res_t` returned for the
pair (0 = accepted); `errText k v` is the descriptive text the native layer
writes into the caller's error buffer on rejection. -/
structure ConfOracle : Type where
  retCode : String → String → Int
  errText : String → String → String

/-- The configuration builder: an insertion-ordered key/value list with
unique keys, mirroring the `HashMap<String, String>` of `Config`
(iteration order is fixed to list order in the model). -/
structure Config : Type where
  conf : List (String × String)
deriving DecidableEq, Repr

/-- `Config::new`: the empty configuration. -/
def Config.new : Config := ⟨[]⟩

/-- Insert with last-write-wins semantics (`HashMap::insert`). -/
def setPair : List (String × String) → String → String → List (String × String)
  | [], k, v => [(k, v)]
  | (k', v') :: t, k, v => if k' = k then (k, v) :: t else (k', v') :: setPair t k v

/-- `Config::set`: store one key/value option. -/
def Config.set (c : Config) (k v : String) : Config := ⟨setPair c.conf k v⟩

/-- The shared per-pair application loop of `Config::create_kafka_config`
and `TopicBuilder::create`: for each pair, build the two C strings (a NUL
fails with `Error::Nul` via `try!`), call the native setter, and fail with
`Error::Config` on the first rejected pair; `acc` is the partially
configured native object. -/
def applyPairs (o : ConfOracle) :
    List (String × String) → List (String × String) → Except Error (List (String × String))
  | acc, [] => Except.ok acc
  | acc, (k, v) :: rest =>
    if hasNul k then Except.error (Error.Nul k)
    else if hasNul v then Except.error (Error.Nul v)
    else if respIsError (o.retCode k v) then
      Except.error (Error.Config (o.retCode k v, o.errText k v, k, v))
    else applyPairs o (acc ++ [(k, v)]) rest

/-- `Config::create_kafka_config`: create a fresh native configuration
object and apply every accumulated pair to it. -/
def Config.create_kafka_config (o : ConfOracle) (c : Config) :
    Except Error (List (String × String)) :=
  applyPairs o [] c.conf

/-- Modelled from the spec: the build contract in its own words — iterate
the accumulated pairs in order, fail at the first pair the native layer
rejects with the engine's descriptive text plus the offending key and
value, otherwise succeed with every pair applied.  (No encoding-failure
branch: the spec sentence for this claim does not mention NUL.) -/
def specBuild (o : ConfOracle) :
    List (String × String) → List (String × String) → Except Error (List (String × String))
  | acc, [] => Except.ok acc
  | acc, (k, v) :: rest =>
    if respIsError (o.retCode k v) then
      Except.error (Error.Config (o.retCode k v, o.errText k v, k, v))
    else specBuild o (acc ++ [(k, v)]) rest

theorem applyPairs_eq_specBuild (o : ConfOracle) (l acc : List (String × String))
    (hp : ∀ kv ∈ l, hasNul kv.1 = false ∧ hasNul kv.2 = false) :
    applyPairs o acc l = specBuild o acc l := by
  induction l generalizing acc with
  | nil => rfl
  | cons p t ih =>
    obtain ⟨k, v⟩ := p
    have hk : hasNul k = false := (hp (k, v) (by simp)).1
    have hv : hasNul v = false := (hp (k, v) (by simp)).2
    rw [applyPairs, specBuild]
    simp only [hk, hv, Bool.false_eq_true, if_false]
    split
    · rfl
    · exact ih (acc ++ [(k, v)]) (fun kv hkv => hp kv (by simp [hkv]))

/-! ## Client creation (`src/client.rs`, `Client::new`) -/

/-- `ClientType` of `src/client.rs`. -/
inductive ClientType : Type
  | Consumer
  | Producer
deriving DecidableEq, Repr

/-- The native configuration object at the moment `rd_kafka_new` consumes
it: the applied key/value pairs plus whether a delivery-report callback
function pointer has been stored by `rd_kafka_conf_set_dr_msg_cb`. -/
structure ConfObj : Type where
  pairs : List (String × String)
  drMsgCb : Bool
deriving DecidableEq, Repr

/-- Native calls issued by `Client::new`, recorded in program order, so that
statement order in the source is visible to the theorems.  `kafkaNew`
records whether the configuration object handed over had the delivery
callback registered at that moment. -/
inductive NCall : Type
  | confSetDrMsgCb
  | kafkaNew (drRegistered : Bool)
deriving DecidableEq, Repr

/-- Modelled from the spec: behaviour of the native `rd_kafka_new`, which is
external to this repository.  `kafkaNewOk ty` tells whether the call
returns a non-null handle for the given client type; `errstrBuf` is what
the native layer leaves in the caller's `errstr` buffer on failure
(extracted by `util::cstr_to_owned`, a helper whose source file is not in
the tree). -/
structure ClientOracle : Type where
  conf : ConfOracle
  kafkaNewOk : ClientType → Bool
  errstrBuf : String

/-- A created client: the handle is represented by the configuration object
the native layer consumed. -/
structure Client : Type where
  confUsed : ConfObj
deriving DecidableEq, Repr

/-- `Client::new`: build the native configuration, register `prod_callback`
for producers (and only for producers) before calling `rd_kafka_new`, fail
with `Error::ClientCreation` carrying the error buffer when the native
layer returns null.  The second component is the list of native calls
issued, in order. -/
def Client.new (o : ClientOracle) (config : Config) (client_type : ClientType) :
    Except Error Client × List NCall :=
  match config.create_kafka_config o.conf with
  | Except.error e => (Except.error e, [])
  | Except.ok pairs =>
    let reg : ConfObj × List NCall :=
      match client_type with
      | ClientType.Consumer => (⟨pairs, false⟩, [])
      | ClientType.Producer => (⟨pairs, true⟩, [NCall.confSetDrMsgCb])
    let calls := reg.2 ++ [NCall.kafkaNew reg.1.drMsgCb]
    if o.kafkaNewOk client_type then (Except.ok ⟨reg.1⟩, calls)
    else (Except.error (Error.ClientCreation o.errstrBuf), calls)

/-! ## Topic creation (`src/client.rs`, `TopicBuilder::create`) -/

/-- Modelled from the spec: behaviour of the native topic entry points,
external to this repository.  `tconf` drives `rd_kafka_topic_conf_set`;
`topicNewOk` tells whether `rd_kafka_topic_new` returns a non-null
handle. -/
structure TopicOracle : Type where
  tconf : ConfOracle
  topicNewOk : Bool

/-- `TopicBuilder`: a topic name plus accumulated topic options (the
`HashMap` is modelled as an insertion-ordered unique-key list, as for
`Config`).  The borrowed parent client is not needed by the claims. -/
structure TopicBuilder : Type where
  name : String
  conf : List (String × String)
deriving DecidableEq, Repr

/-- A created topic handle: its name and the applied topic configuration. -/
structure Topic : Type where
  name : String
  tconf : List (String × String)
deriving DecidableEq, Repr

/-- Outcome of a Rust call that may panic: `ok`, an `Err` result, or a
panic (used for `CString::new(name).unwrap()`). -/
inductive Ret (α : Type) : Type
  | ok : α → Ret α
  | err : Error → Ret α
  | panicked : Ret α
deriving DecidableEq, Repr

/-- `TopicBuilder::set`: store one topic option. -/
def TopicBuilder.set (b : TopicBuilder) (k v : String) : TopicBuilder :=
  ⟨b.name, setPair b.conf k v⟩

/-- `TopicBuilder::create`: `CString::new(name).unwrap()` panics on an
embedded NUL; then every accumulated option pair is applied to a fresh
native topic configuration (same loop as `create_kafka_config`); finally
`rd_kafka_topic_new` returning null yields `Error::TopicName(name)`,
otherwise the topic handle is returned. -/
def TopicBuilder.create (o : TopicOracle) (b : TopicBuilder) : Ret Topic :=
  if hasNul b.name then Ret.panicked
  else
    match applyPairs o.tconf [] b.conf with
    | Except.error e => Ret.err e
    | Except.ok applied =>
      if o.topicNewOk then Ret.ok ⟨b.name, applied⟩
      else Ret.err (Error.TopicName b.name)

/-- Modelled from the spec: topic creation in the spec's own words — apply
the options with the same per-pair policy as the configuration build, fail
on the first rejected pair; if all pairs are accepted and native creation
returns null, fail naming the topic; otherwise return the handle. -/
def specTopicCreate (o : TopicOracle) (b : TopicBuilder) : Ret Topic :=
  match specBuild o.tconf [] b.conf with
  | Except.error e => Ret.err e
  | Except.ok applied =>
    if o.topicNewOk then Ret.ok ⟨b.name, applied⟩
    else Ret.err (Error.TopicName b.name)

/-! ## Delivery pipeline (`src/client.rs` `prod_callback`, `src/producer.rs`)

The oneshot promise/future pairs and the heap of boxed promises are made
explicit: `heap` maps the address of a live `Box<Complete<DeliveryStatus>>`
to the id of its oneshot channel; `chans` maps a channel id to its state;
`queue` holds the opaque tokens of the messages the native layer has
accepted and not yet reported (the native engine's internal queue,
modelled from the spec's interface contract: the delivery callback fires
exactly once per successfully enqueued send, during a poll call). -/

/-- `DeliveryStatus` of `src/client.rs`: error code, partition, offset. -/
structure DeliveryStatus : Type where
  error : Int
  partition : Int
  offset : Int
deriving DecidableEq, Repr

/-- State of a oneshot channel: waiting, or completed with a status. -/
inductive ChanState : Type
  | pending
  | fulfilled (ds : DeliveryStatus)
deriving DecidableEq, Repr

/-- The fields of a native `rd_kafka_message_t` completion record used by
`prod_callback`: `err`, `partition`, `offset` and the `_private` opaque
token. -/
structure MsgRecord : Type where
  err : Int
  partition : Int
  offset : Int
  priv : Nat
deriving DecidableEq, Repr

/-- Global state of the pipeline. -/
structure World : Type where
  heap : List (Nat × Nat)
  nextAddr : Nat
  chans : List (Nat × ChanState)
  nextChan : Nat
  queue : List Nat
deriving DecidableEq, Repr

/-- The state before any send: no allocations, no channels, empty queue. -/
def emptyWorld : World := ⟨[], 0, [], 0, []⟩

/-- `prod_callback` of `src/client.rs`: `Box::from_raw` reconstructs the
promise from the opaque token `msg.priv` (removing the allocation from the
heap — the box is consumed), a `DeliveryStatus` is built from the record's
`err`/`partition`/`offset`, and the promise is completed with it.  A token
with no live allocation is undefined behaviour in the source; the model
leaves the state unchanged there. -/
def prod_callback (w : World) (msg : MsgRecord) : World :=
  match alookup w.heap msg.priv with
  | none => w
  | some c =>
    { w with
      heap := aremove w.heap msg.priv,
      chans := aset w.chans c (ChanState.fulfilled ⟨msg.err, msg.partition, msg.offset⟩) }

/-- `Producer::_send_copy` (reached through `Producer::send_copy`): create
a fresh oneshot pair, box the promise half and pass its address to
`rd_kafka_produce` as the opaque token.  `produceRet` is the native return
value (0 = enqueued) and `errnoVal` the thread's errno, both supplied by
the native layer; `errno2err` models the native `rd_kafka_errno2err`
translation table.  On a non-zero return the code returns
`Error::MessageProduction(errno2err(errno))` — without reclaiming the box.
On success the channel id of the future half is returned and the token
joins the native queue. -/
def send_copy (w : World) (produceRet : Int) (errnoVal : Int) (errno2err : Int → Int) :
    Except Error Nat × World :=
  let c := w.nextChan
  let w1 : World := { w with chans := w.chans ++ [(c, ChanState.pending)], nextChan := c + 1 }
  let a := w1.nextAddr
  let w2 : World := { w1 with heap := w1.heap ++ [(a, c)], nextAddr := a + 1 }
  if produceRet != 0 then
    (Except.error (Error.MessageProduction (errno2err errnoVal)), w2)
  else
    (Except.ok c, { w2 with queue := w2.queue ++ [a] })

/-- Perform `n` sends that the native layer accepts (`rd_kafka_produce`
returns 0), collecting the channel ids of the returned futures. -/
def sendMany (w : World) : Nat → List Nat × World
  | 0 => ([], w)
  | n + 1 =>
    match send_copy w 0 0 (fun e => e) with
    | (Except.ok c, w') =>
      let rest := sendMany w' n
      (c :: rest.1, rest.2)
    | (Except.error _, w') => ([], w')

/-- Run `prod_callback` for each completion record the native layer
delivers during one poll call (token paired with the status the engine
reports for it). -/
def deliverAll (w : World) : List (Nat × DeliveryStatus) → World
  | [] => w
  | (t, ds) :: rest =>
    deliverAll (prod_callback w ⟨ds.error, ds.partition, ds.offset, t⟩) rest

/-- One `rd_kafka_poll` step: the native engine reports the next
`outcomes.length` pending completions (in enqueue order, as many as are
pending), removing them from its queue and invoking the registered
callback once for each. -/
def pollStep (w : World) (outcomes : List DeliveryStatus) : World :=
  deliverAll { w with queue := w.queue.drop outcomes.length } (w.queue.zip outcomes)

/-- Repeated polling: one `pollStep` per element of the schedule. -/
def dispatchRun (w : World) : List (List DeliveryStatus) → World
  | [] => w
  | o :: rest => dispatchRun (pollStep w o) rest

/-! ## Background polling thread (`src/producer.rs`)

`ProducerPollingThread` owns a cooperative-stop flag (`Arc<AtomicBool>`)
and an optional `JoinHandle`.  The worker loop is `while
!should_stop.load() { producer.poll(100) }`; it is modelled by a step
function, and joining is modelled by running worker steps until the loop
has exited (once the flag is set the very next check exits, so one step
suffices and further steps are proved to change nothing). -/

/-- State of a `ProducerPollingThread` together with its worker: the flag,
whether the worker loop is still running, whether the `JoinHandle` is
still present (`handle.is_some()`), and how many poll calls the worker has
made (each poll is an opportunity for completion callbacks to fire). -/
structure ProducerPollingThread : Type where
  should_stop : Bool
  workerAlive : Bool
  handle : Bool
  polls : Nat
deriving DecidableEq, Repr

/-- `ProducerPollingThread::new`: flag false, no worker, no handle. -/
def ProducerPollingThread.new : ProducerPollingThread := ⟨false, false, false, 0⟩

/-- `ProducerPollingThread::start`: spawn the worker and store the handle. -/
def ProducerPollingThread.start (s : ProducerPollingThread) : ProducerPollingThread :=
  { s with workerAlive := true, handle := true }

/-- One iteration of the worker loop: if the loop has exited nothing
happens; otherwise the flag is checked — if set the loop exits, if not the
worker polls once (and callbacks may fire). -/
def workerStep (s : ProducerPollingThread) : ProducerPollingThread :=
  if s.workerAlive then
    if s.should_stop then { s with workerAlive := false }
    else { s with polls := s.polls + 1 }
  else s

/-- Run `n` worker iterations. -/
def runWorker (s : ProducerPollingThread) : Nat → ProducerPollingThread
  | 0 => s
  | n + 1 => runWorker (workerStep s) n

/-- `JoinHandle::join`: block until the worker loop has exited.  With the
stop flag already set the next flag check exits the loop, so the join is
one worker step; `runWorker_stop_stable` below proves that any further
steps leave the state unchanged, i.e. the loop really has terminated. -/
def joinWorker (s : ProducerPollingThread) : ProducerPollingThread :=
  workerStep s

/-- `ProducerPollingThread::stop`: when a handle is present, store `true`
into the flag, take the handle and join the worker; otherwise do
nothing. -/
def ProducerPollingThread.stop (s : ProducerPollingThread) : ProducerPollingThread :=
  if s.handle then
    let s1 : ProducerPollingThread := { s with should_stop := true }
    let s2 := joinWorker s1
    { s2 with handle := false }
  else s

/-- The `Drop` impl for `ProducerPollingThread`: it calls `self.stop()`. -/
def pptDrop (s : ProducerPollingThread) : ProducerPollingThread :=
  ProducerPollingThread.stop s

/-! ## Invariants of the delivery pipeline

After `N` accepted sends and the delivery of the first `d` completions the
world has the canonical shape `stepWorld st N d`, where `st i` is the
status the native engine reports for the `i`-th message: tokens and
channel ids are `0, 1, …, N-1`, the boxes for the not-yet-delivered tokens
`d, …, N-1` are live, channels below `d` are fulfilled with their own
status, and the native queue holds the undelivered tokens in order. -/

/-- State of channel `i` once the first `d` completions are delivered. -/
def cState (st : Nat → DeliveryStatus) (d i : Nat) : ChanState :=
  if i < d then ChanState.fulfilled (st i) else ChanState.pending

/-- Heap after `d` of `N` completions: boxes for tokens `d, …, N-1`. -/
def hFrom (N d : Nat) : List (Nat × Nat) :=
  (tokRange d (N - d)).map fun i => (i, i)

/-- Channels after `d` of `N` completions. -/
def cFrom (st : Nat → DeliveryStatus) (N d : Nat) : List (Nat × ChanState) :=
  (tokRange 0 N).map fun i => (i, cState st d i)

/-- Canonical world after `N` sends and `d` delivered completions. -/
def stepWorld (st : Nat → DeliveryStatus) (N d : Nat) : World :=
  ⟨hFrom N d, N, cFrom st N d, N, tokRange d (N - d)⟩

/-- World after `s` accepted sends and no completions. -/
def sentWorld (s : Nat) : World :=
  ⟨(tokRange 0 s).map fun i => (i, i), s,
   (tokRange 0 s).map fun i => (i, ChanState.pending), s, tokRange 0 s⟩

theorem tokRange_map_congr {α : Type} (f g : Nat → α) (s n : Nat)
    (h : ∀ i, s ≤ i → i < s + n → f i = g i) :
    (tokRange s n).map f = (tokRange s n).map g := by
  induction n generalizing s with
  | zero => rfl
  | succ m ih =>
    rw [tokRange_succ, List.map_cons, List.map_cons,
        h s (Nat.le_refl s) (by omega)]
    rw [ih (s + 1) (fun i h1 h2 => h i (by omega) (by omega))]

theorem alookup_map_tokRange {α : Type} (g : Nat → α) (n : Nat) :
    ∀ (s x : Nat), alookup ((tokRange s n).map fun i => (i, g i)) x
      = if s ≤ x ∧ x < s + n then some (g x) else none := by
  induction n with
  | zero =>
    intro s x
    rw [if_neg (by omega)]
    rfl
  | succ m ih =>
    intro s x
    rw [tokRange_succ, List.map_cons, alookup_cons]
    by_cases h : s = x
    · subst h
      rw [if_pos rfl, if_pos (by omega)]
    · rw [if_neg h, ih (s + 1) x]
      by_cases h2 : s ≤ x ∧ x < s + (m + 1)
      · rw [if_pos (by omega), if_pos h2]
      · rw [if_neg (by omega), if_neg h2]

theorem aset_map_tokRange {α : Type} (g : Nat → α) (n : Nat) :
    ∀ (s x : Nat) (v : α), s ≤ x → x < s + n →
    aset ((tokRange s n).map fun i => (i, g i)) x v
      = (tokRange s n).map fun i => (i, if i = x then v else g i) := by
  induction n with
  | zero => intro s x v h1 h2; omega
  | succ m ih =>
    intro s x v h1 h2
    rw [tokRange_succ, List.map_cons, List.map_cons, aset_cons]
    by_cases h : s = x
    · rw [if_pos h, if_pos h]
      subst h
      have htail : ((tokRange (s + 1) m).map fun i => (i, g i))
          = (tokRange (s + 1) m).map fun i => (i, if i = s then v else g i) := by
        apply tokRange_map_congr
        intro i hi1 hi2
        rw [if_neg (by omega)]
      rw [← htail]
    · rw [if_neg h, if_neg h, ih (s + 1) x v (by omega) (by omega)]

theorem aset_cFrom (st : Nat → DeliveryStatus) (N d : Nat) (h : d < N) :
    aset (cFrom st N d) d (ChanState.fulfilled (st d)) = cFrom st N (d + 1) := by
  unfold cFrom
  rw [aset_map_tokRange (cState st d) N 0 d (ChanState.fulfilled (st d)) (by omega) (by omega)]
  apply tokRange_map_congr
  intro i hi1 hi2
  by_cases he : i = d
  · subst he
    rw [if_pos rfl]
    unfold cState
    rw [if_pos (by omega)]
  · rw [if_neg he]
    unfold cState
    by_cases hlt : i < d
    · rw [if_pos hlt, if_pos (by omega)]
    · rw [if_neg hlt, if_neg (by omega)]

theorem aremove_hFrom (N d : Nat) (h : d < N) :
    aremove (hFrom N d) d = hFrom N (d + 1) := by
  unfold hFrom
  have hrw : N - d = (N - (d + 1)) + 1 := by omega
  rw [hrw, tokRange_succ, List.map_cons, aremove_cons, if_pos rfl]
  apply aremove_of_forall_ne
  intro p hp
  rw [List.mem_map] at hp
  obtain ⟨i, hi, rfl⟩ := hp
  have := mem_tokRange.mp hi
  omega

theorem alookup_hFrom_self (N d : Nat) (h : d < N) :
    alookup (hFrom N d) d = some d := by
  unfold hFrom
  rw [alookup_map_tokRange, if_pos (by omega)]

theorem prod_callback_stepWorld (st : Nat → DeliveryStatus) (N d : Nat) (q : List Nat)
    (h : d < N) :
    prod_callback ⟨hFrom N d, N, cFrom st N d, N, q⟩
        ⟨(st d).error, (st d).partition, (st d).offset, d⟩
      = ⟨hFrom N (d + 1), N, cFrom st N (d + 1), N, q⟩ := by
  unfold prod_callback
  simp only [alookup_hFrom_self N d h, aremove_hFrom N d h, aset_cFrom st N d h]

theorem deliverAll_stepWorld (st : Nat → DeliveryStatus) (N : Nat) :
    ∀ (k d : Nat) (q : List Nat), d + k ≤ N →
    deliverAll ⟨hFrom N d, N, cFrom st N d, N, q⟩ ((tokRange d k).map fun i => (i, st i))
      = ⟨hFrom N (d + k), N, cFrom st N (d + k), N, q⟩ := by
  intro k
  induction k with
  | zero => intro d q h; rfl
  | succ m ih =>
    intro d q h
    have harith : d + (m + 1) = d + 1 + m := by omega
    rw [harith, tokRange_succ, List.map_cons, deliverAll,
        prod_callback_stepWorld st N d q (by omega)]
    exact ih (d + 1) q (by omega)

theorem zip_tokRange_eq (st : Nat → DeliveryStatus) :
    ∀ (o : List DeliveryStatus) (m d : Nat),
    (∀ j, j < o.length → j < m → o.getD j ⟨0, 0, 0⟩ = st (d + j)) →
    (tokRange d m).zip o = (tokRange d (min o.length m)).map fun i => (i, st i) := by
  intro o
  induction o with
  | nil =>
    intro m d _
    rw [List.zip_nil_right, List.length_nil, Nat.zero_min, tokRange_zero, List.map_nil]
  | cons a o' ih =>
    intro m d h
    cases m with
    | zero => rw [tokRange_zero, Nat.min_zero]; rfl
    | succ m' =>
      rw [tokRange_succ, List.zip_cons_cons]
      have ha : a = st d := by
        have h0 := h 0 (by simp) (by omega)
        rw [List.getD_cons_zero] at h0
        simpa using h0
      have hmin : min (a :: o').length (m' + 1) = min o'.length m' + 1 := by
        rw [List.length_cons]; omega
      rw [hmin, tokRange_succ, List.map_cons, ha]
      have htail := ih m' (d + 1) (fun j hj hjm => by
        have hh := h (j + 1) (by rw [List.length_cons]; omega) (by omega)
        rw [List.getD_cons_succ] at hh
        rw [hh]
        congr 1
        omega)
      rw [htail]

theorem pollStep_stepWorld (st : Nat → DeliveryStatus) (N d : Nat)
    (o : List DeliveryStatus) (hd : d ≤ N)
    (h : ∀ j, j < o.length → j < N - d → o.getD j ⟨0, 0, 0⟩ = st (d + j)) :
    pollStep (stepWorld st N d) o = stepWorld st N (d + min o.length (N - d)) := by
  unfold pollStep stepWorld
  simp only []
  rw [tokRange_drop, zip_tokRange_eq st o (N - d) d h]
  have hq : tokRange (d + o.length) (N - d - o.length)
      = tokRange (d + min o.length (N - d)) (N - (d + min o.length (N - d))) := by
    rcases Nat.le_total o.length (N - d) with hle | hle
    · have h1 : min o.length (N - d) = o.length := by omega
      rw [h1]
      congr 1
      omega
    · have h1 : N - d - o.length = 0 := by omega
      have h2 : N - (d + min o.length (N - d)) = 0 := by omega
      rw [h1, h2, tokRange_zero, tokRange_zero]
  rw [hq]
  exact deliverAll_stepWorld st N (min o.length (N - d)) d _ (by omega)

theorem getD_append_left {α : Type} (l l' : List α) (dflt : α) :
    ∀ j, j < l.length → (l ++ l').getD j dflt = l.getD j dflt := by
  induction l with
  | nil => intro j hj; simp at hj
  | cons a t ih =>
    intro j hj
    cases j with
    | zero => rfl
    | succ m =>
      rw [List.cons_append, List.getD_cons_succ, List.getD_cons_succ]
      exact ih m (by simpa using hj)

theorem getD_append_right {α : Type} (l l' : List α) (dflt : α) :
    ∀ j, (l ++ l').getD (l.length + j) dflt = l'.getD j dflt := by
  induction l with
  | nil => intro j; rw [List.nil_append, List.length_nil, Nat.zero_add]
  | cons a t ih =>
    intro j
    have harith : (a :: t).length + j = (t.length + j) + 1 := by
      rw [List.length_cons]; omega
    rw [harith, List.cons_append, List.getD_cons_succ]
    exact ih j

theorem dispatchRun_stepWorld (st : Nat → DeliveryStatus) (N : Nat) :
    ∀ (ss : List (List DeliveryStatus)) (d : Nat), d ≤ N →
    (∀ j, j < (concatAll ss).length → d + j < N →
      (concatAll ss).getD j ⟨0, 0, 0⟩ = st (d + j)) →
    dispatchRun (stepWorld st N d) ss
      = stepWorld st N (min N (d + (concatAll ss).length)) := by
  intro ss
  induction ss with
  | nil =>
    intro d hd _
    have he : min N (d + (concatAll ([] : List (List DeliveryStatus))).length) = d := by
      rw [concatAll_nil, List.length_nil]
      omega
    rw [he]
    rfl
  | cons o rest ih =>
    intro d hd h
    have hstep : ∀ j, j < o.length → j < N - d → o.getD j ⟨0, 0, 0⟩ = st (d + j) := by
      intro j hj hjd
      have := h j (by rw [concatAll_cons, List.length_append]; omega) (by omega)
      rw [concatAll_cons, getD_append_left o (concatAll rest) _ j hj] at this
      exact this
    rw [dispatchRun, pollStep_stepWorld st N d o hd hstep]
    have hrest : ∀ j, j < (concatAll rest).length →
        (d + min o.length (N - d)) + j < N →
        (concatAll rest).getD j ⟨0, 0, 0⟩ = st ((d + min o.length (N - d)) + j) := by
      intro j hj hjd
      have hk : min o.length (N - d) = o.length := by omega
      have := h (o.length + j)
        (by rw [concatAll_cons, List.length_append]; omega) (by omega)
      rw [concatAll_cons, getD_append_right o (concatAll rest) _ j] at this
      rw [this]
      congr 1
      omega
    rw [ih (d + min o.length (N - d)) (by omega) hrest]
    have harith : min N ((d + min o.length (N - d)) + (concatAll rest).length)
        = min N (d + (concatAll (o :: rest)).length) := by
      rw [concatAll_cons, List.length_append]
      omega
    rw [harith]

theorem send_copy_sentWorld (s : Nat) :
    send_copy (sentWorld s) 0 0 (fun e => e) = (Except.ok s, sentWorld (s + 1)) := by
  have ht : tokRange 0 (s + 1) = tokRange 0 s ++ [s] := by
    have h := tokRange_append_last s 0
    rw [Nat.zero_add] at h
    exact h
  unfold send_copy sentWorld
  simp only []
  rw [if_neg (by simp)]
  rw [ht, List.map_append, List.map_append]
  rfl

theorem sendMany_sentWorld (n : Nat) :
    ∀ s, sendMany (sentWorld s) n = (tokRange s n, sentWorld (s + n)) := by
  induction n with
  | zero => intro s; rfl
  | succ m ih =>
    intro s
    rw [sendMany, send_copy_sentWorld s]
    simp only []
    rw [ih (s + 1)]
    simp only []
    rw [tokRange_succ]
    have harith : s + 1 + m = s + (m + 1) := by omega
    rw [harith]

theorem sentWorld_eq_stepWorld (st : Nat → DeliveryStatus) (N : Nat) :
    sentWorld N = stepWorld st N 0 := by
  unfold sentWorld stepWorld hFrom cFrom
  have hc : ((tokRange 0 N).map fun i => (i, ChanState.pending))
      = (tokRange 0 N).map fun i => (i, cState st 0 i) := by
    apply tokRange_map_congr
    intro i _ _
    unfold cState
    rw [if_neg (by omega)]
  rw [hc, Nat.sub_zero]

/-! ## Polling-thread lemmas -/

theorem workerStep_exited (s : ProducerPollingThread) (h : s.workerAlive = false) :
    workerStep s = s := by
  unfold workerStep
  rw [if_neg (by rw [h]; exact Bool.false_ne_true)]

theorem runWorker_exited (s : ProducerPollingThread) (h : s.workerAlive = false) :
    ∀ n, runWorker s n = s := by
  intro n
  induction n with
  | zero => rfl
  | succ m ih =>
    rw [runWorker, workerStep_exited s h]
    exact ih

theorem stop_workerAlive (s : ProducerPollingThread) :
    (ProducerPollingThread.stop s).workerAlive = false ∨
      ProducerPollingThread.stop s = s := by
  unfold ProducerPollingThread.stop joinWorker workerStep
  by_cases hh : s.handle = true
  · left
    rw [if_pos hh]
    by_cases ha : s.workerAlive = true
    · simp [ha]
    · simp [ha]
  · right
    rw [if_neg hh]

/-! ## Characterisation of the spec-side build -/

theorem specBuild_all_ok (o : ConfOracle) :
    ∀ (l acc : List (String × String)), (∀ kv ∈ l, o.retCode kv.1 kv.2 = 0) →
    specBuild o acc l = Except.ok (acc ++ l) := by
  intro l
  induction l with
  | nil => intro acc _; rw [specBuild, List.append_nil]
  | cons p t ih =>
    intro acc h
    obtain ⟨k, v⟩ := p
    have hk : o.retCode k v = 0 := h (k, v) (by simp)
    have hfalse : respIsError (o.retCode k v) = false := by
      unfold respIsError
      rw [hk]
      rfl
    rw [specBuild, if_neg (by rw [hfalse]; exact Bool.false_ne_true)]
    rw [ih (acc ++ [(k, v)]) (fun kv hkv => h kv (by simp [hkv])), List.append_assoc]
    rfl

theorem specBuild_first_reject (o : ConfOracle) :
    ∀ (pre acc : List (String × String)) (k v : String) (post : List (String × String)),
    (∀ kv ∈ pre, o.retCode kv.1 kv.2 = 0) → o.retCode k v ≠ 0 →
    specBuild o acc (pre ++ (k, v) :: post)
      = Except.error (Error.Config (o.retCode k v, o.errText k v, k, v)) := by
  intro pre
  induction pre with
  | nil =>
    intro acc k v post _ hr
    have htrue : respIsError (o.retCode k v) = true := by
      unfold respIsError
      exact bne_iff_ne.mpr hr
    rw [List.nil_append, specBuild, if_pos htrue]
  | cons p t ih =>
    intro acc k v post h hr
    obtain ⟨k', v'⟩ := p
    have hk : o.retCode k' v' = 0 := h (k', v') (by simp)
    have hfalse : respIsError (o.retCode k' v') = false := by
      unfold respIsError
      rw [hk]
      rfl
    rw [List.cons_append, specBuild, if_neg (by rw [hfalse]; exact Bool.false_ne_true)]
    exact ih (acc ++ [(k', v')]) k v post (fun kv hkv => h kv (by simp [hkv])) hr

/-! ## Call traces of `Client::new` -/

theorem clientNew_conf_error (o : ClientOracle) (config : Config) (t : ClientType)
    (e : Error) (h : Config.create_kafka_config o.conf config = Except.error e) :
    Client.new o config t = (Except.error e, []) := by
  unfold Client.new
  rw [h]

theorem clientNew_snd_producer (o : ClientOracle) (config : Config)
    (pairs : List (String × String))
    (h : Config.create_kafka_config o.conf config = Except.ok pairs) :
    (Client.new o config ClientType.Producer).2
      = [NCall.confSetDrMsgCb, NCall.kafkaNew true] := by
  unfold Client.new
  simp only [h]
  split <;> rfl

theorem clientNew_snd_consumer (o : ClientOracle) (config : Config)
    (pairs : List (String × String))
    (h : Config.create_kafka_config o.conf config = Except.ok pairs) :
    (Client.new o config ClientType.Consumer).2 = [NCall.kafkaNew false] := by
  unfold Client.new
  simp only [h]
  split <;> rfl

/-! ## Claim theorems -/

/-- C1: the failing input.  When `rd_kafka_produce` returns non-zero
(queue full, modelled by return value `-1` with errno 105), `_send_copy`
does return `SendError` carrying the translated error code — but the
heap-allocated promise box (address 0) is still allocated after the call
returns, and its token is not in the native queue, so nothing can ever
reclaim it: the token is leaked, contradicting the claim that the promise
is reclaimed and discarded before `send` returns. -/
theorem claim_C1_failing_input :
    (send_copy emptyWorld (-1) 105 (fun e => e)).1
      = Except.error (Error.MessageProduction 105) ∧
    alookup (send_copy emptyWorld (-1) 105 (fun e => e)).2.heap 0 = some 0 ∧
    (send_copy emptyWorld (-1) 105 (fun e => e)).2.queue = [] :=
  ⟨rfl, rfl, rfl⟩

/-- C3 counterexample: with an option key containing an embedded NUL and a
native layer that accepts every pair (`retCode` constantly 0), `build()`
neither succeeds with the pair applied nor reports a rejected pair — it
fails with the distinct encoding error `Error::Nul`, refuting the claim as
stated for NUL-containing inputs. -/
theorem claim_C3_counterexample :
    Config.create_kafka_config ⟨fun _ _ => 0, fun _ _ => ""⟩ ⟨[("a\x00", "b")]⟩
      = Except.error (Error.Nul "a\x00") := rfl

/-- C3 (amended with: no accumulated key or value contains an embedded
NUL): `build()` coincides with the spec-side build `specBuild`; in
particular it succeeds with every accumulated pair applied when the native
layer accepts them all, and fails reporting exactly the first rejected
pair — carrying the native result code, the engine's descriptive error
text, and the offending key and value — otherwise. -/
theorem claim_C3_amended (o : ConfOracle) (c : Config)
    (hp : ∀ kv ∈ c.conf, hasNul kv.1 = false ∧ hasNul kv.2 = false) :
    Config.create_kafka_config o c = specBuild o [] c.conf ∧
    ((∀ kv ∈ c.conf, o.retCode kv.1 kv.2 = 0) →
      Config.create_kafka_config o c = Except.ok c.conf) ∧
    (∀ pre k v post, c.conf = pre ++ (k, v) :: post →
      (∀ kv ∈ pre, o.retCode kv.1 kv.2 = 0) → o.retCode k v ≠ 0 →
      Config.create_kafka_config o c
        = Except.error (Error.Config (o.retCode k v, o.errText k v, k, v))) := by
  have heq : Config.create_kafka_config o c = specBuild o [] c.conf :=
    applyPairs_eq_specBuild o c.conf [] hp
  refine ⟨heq, ?_, ?_⟩
  · intro hall
    rw [heq, specBuild_all_ok o c.conf [] hall, List.nil_append]
  · intro pre k v post hdec hpre hr
    rw [heq, hdec, specBuild_first_reject o pre [] k v post hpre hr]

/-- C3 witness: a concrete rejected pair is reported exactly. -/
theorem claim_C3_witness :
    Config.create_kafka_config ⟨fun _ _ => -1, fun _ _ => "E"⟩ ⟨[("k", "v")]⟩
      = Except.error (Error.Config (-1, "E", "k", "v")) :=
  (claim_C3_amended ⟨fun _ _ => -1, fun _ _ => "E"⟩ ⟨[("k", "v")]⟩ (by decide)).2.2
    [] "k" "v" [] rfl (by decide) (by decide)

/-- C5: the failing input.  An option key or value containing an embedded
NUL does surface as the distinct encoding error `Error::Nul` returned to
the caller (second and third conjuncts), but a topic NAME containing an
embedded NUL makes `TopicBuilder::create` panic — via
`CString::new(self.name.clone()).unwrap()` — instead of returning the
encoding error the claim (and the spec's propagation policy) requires. -/
theorem claim_C5_failing_input :
    TopicBuilder.create ⟨⟨fun _ _ => 0, fun _ _ => ""⟩, true⟩ ⟨"top\x00ic", []⟩
      = (Ret.panicked : Ret Topic) ∧
    Config.create_kafka_config ⟨fun _ _ => 0, fun _ _ => ""⟩ ⟨[("key", "v\x00")]⟩
      = Except.error (Error.Nul "v\x00") ∧
    Config.create_kafka_config ⟨fun _ _ => 0, fun _ _ => ""⟩ ⟨[("k\x00ey", "v")]⟩
      = Except.error (Error.Nul "k\x00ey") :=
  ⟨by decide, rfl, rfl⟩

/-- C9 counterexample: with an option value containing an embedded NUL, a
native layer that accepts every pair, and a non-null native topic
creation, the claim's case split demands that a topic handle be returned —
but `TopicBuilder::create` fails with the encoding error `Error::Nul`,
refuting the claim as stated for NUL-containing inputs. -/
theorem claim_C9_counterexample :
    TopicBuilder.create ⟨⟨fun _ _ => 0, fun _ _ => ""⟩, true⟩ ⟨"t", [("k", "b\x00")]⟩
      = Ret.err (Error.Nul "b\x00") := by decide

/-- C9 (amended with: the topic name and the accumulated option keys and
values contain no embedded NUL): `TopicBuilder::create` coincides with the
spec-side `specTopicCreate` — every accumulated pair is applied to a fresh
native topic configuration, the first rejected pair fails the whole
creation with a configuration error naming that key and value, a null
native topic-creation result fails with an error reporting the topic name,
and otherwise a topic handle is returned. -/
theorem claim_C9_amended (o : TopicOracle) (b : TopicBuilder)
    (hname : hasNul b.name = false)
    (hp : ∀ kv ∈ b.conf, hasNul kv.1 = false ∧ hasNul kv.2 = false) :
    TopicBuilder.create o b = specTopicCreate o b := by
  unfold TopicBuilder.create specTopicCreate
  rw [if_neg (by rw [hname]; exact Bool.false_ne_true)]
  rw [applyPairs_eq_specBuild o.tconf b.conf [] hp]

/-- C9 witness: the amended claim at a concrete NUL-free input. -/
theorem claim_C9_witness :
    TopicBuilder.create ⟨⟨fun _ _ => 0, fun _ _ => ""⟩, true⟩ ⟨"t", [("k", "v")]⟩
      = specTopicCreate ⟨⟨fun _ _ => 0, fun _ _ => ""⟩, true⟩ ⟨"t", [("k", "v")]⟩ :=
  claim_C9_amended ⟨⟨fun _ _ => 0, fun _ _ => ""⟩, true⟩ ⟨"t", [("k", "v")]⟩
    (by decide) (by decide)

/-- C2: after `N` sends accepted by the native layer — which create `N`
pairwise-distinct completion tokens and futures (the channel ids
`0, …, N-1`) — dispatching the event loop over any schedule of `M ≥ N`
poll calls in which the native engine reports all `N` completions
(`N ≤ (concatAll ss).length`, the engine's exactly-once delivery
contract), every token is redeemed exactly once: the heap of live promise
boxes is empty (each box reclaimed once, none leaked), the native queue is
drained, exactly `N` channels exist, and channel `i` is fulfilled with
precisely the `i`-th reported status — never duplicated, never misrouted
to another future. -/
theorem claim_C2 (N : Nat) (ss : List (List DeliveryStatus))
    (hM : N ≤ ss.length) (hTot : N ≤ (concatAll ss).length) :
    (sendMany emptyWorld N).1 = tokRange 0 N ∧
    (sendMany emptyWorld N).1.Nodup ∧
    (dispatchRun (sendMany emptyWorld N).2 ss).heap = [] ∧
    (dispatchRun (sendMany emptyWorld N).2 ss).queue = [] ∧
    (dispatchRun (sendMany emptyWorld N).2 ss).chans.length = N ∧
    ∀ i, i < N → alookup (dispatchRun (sendMany emptyWorld N).2 ss).chans i
      = some (ChanState.fulfilled ((concatAll ss).getD i ⟨0, 0, 0⟩)) := by
  have hsend : sendMany emptyWorld N = (tokRange 0 N, sentWorld N) := by
    have h := sendMany_sentWorld N 0
    rw [Nat.zero_add] at h
    exact h
  have hdisp : dispatchRun (sendMany emptyWorld N).2 ss
      = stepWorld (fun i => (concatAll ss).getD i ⟨0, 0, 0⟩) N N := by
    rw [hsend]
    show dispatchRun (sentWorld N) ss = _
    rw [sentWorld_eq_stepWorld (fun i => (concatAll ss).getD i ⟨0, 0, 0⟩) N,
        dispatchRun_stepWorld (fun i => (concatAll ss).getD i ⟨0, 0, 0⟩) N ss 0
          (by omega) (fun j hj hjN => by rw [Nat.zero_add])]
    congr 1
    omega
  refine ⟨by rw [hsend], by rw [hsend]; exact tokRange_nodup 0 N, ?_, ?_, ?_, ?_⟩
  · rw [hdisp]
    show hFrom N N = []
    unfold hFrom
    rw [Nat.sub_self, tokRange_zero, List.map_nil]
  · rw [hdisp]
    show tokRange N (N - N) = []
    rw [Nat.sub_self, tokRange_zero]
  · rw [hdisp]
    show (cFrom _ N N).length = N
    unfold cFrom
    rw [List.length_map, tokRange_length]
  · intro i hi
    rw [hdisp]
    show alookup (cFrom _ N N) i = _
    unfold cFrom
    rw [alookup_map_tokRange, if_pos (by omega)]
    unfold cState
    rw [if_pos hi]

/-- C2 witness: one send, one poll carrying its completion record. -/
theorem claim_C2_witness :
    (sendMany emptyWorld 1).1 = tokRange 0 1 ∧
    (dispatchRun (sendMany emptyWorld 1).2 [[(⟨0, 2, 5⟩ : DeliveryStatus)]]).heap = [] ∧
    alookup (dispatchRun (sendMany emptyWorld 1).2 [[(⟨0, 2, 5⟩ : DeliveryStatus)]]).chans 0
      = some (ChanState.fulfilled
          ((concatAll [[(⟨0, 2, 5⟩ : DeliveryStatus)]]).getD 0 ⟨0, 0, 0⟩)) := by
  have h := claim_C2 1 [[(⟨0, 2, 5⟩ : DeliveryStatus)]] (by decide) (by decide)
  exact ⟨h.1, h.2.2.1, h.2.2.2.2.2 0 (by decide)⟩

/-- C4: for a started dispatch loop (`handle` present), `stop()` stores
`true` into the cooperative-stop flag, the joined worker has exited, the
handle is gone, no further worker iteration changes anything (in
particular the worker performs no further poll call, so no completion
callback fires through it after `stop()` returns), and the `Drop`
implementation performs exactly `stop()`. -/
theorem claim_C4 (s : ProducerPollingThread) (h : s.handle = true) :
    (ProducerPollingThread.stop s).should_stop = true ∧
    (ProducerPollingThread.stop s).workerAlive = false ∧
    (ProducerPollingThread.stop s).handle = false ∧
    (∀ n, runWorker (ProducerPollingThread.stop s) n = ProducerPollingThread.stop s) ∧
    pptDrop s = ProducerPollingThread.stop s := by
  obtain ⟨f, a, hd, p⟩ := s
  cases hd with
  | false => simp at h
  | true =>
    cases a <;> exact ⟨rfl, rfl, rfl, fun n => runWorker_exited _ rfl n, rfl⟩

/-- C4 witness: a running loop at a concrete state. -/
theorem claim_C4_witness :
    (ProducerPollingThread.stop ⟨false, true, true, 0⟩).should_stop = true ∧
    (ProducerPollingThread.stop ⟨false, true, true, 0⟩).workerAlive = false ∧
    (ProducerPollingThread.stop ⟨false, true, true, 0⟩).handle = false ∧
    runWorker (ProducerPollingThread.stop ⟨false, true, true, 0⟩) 3
      = ProducerPollingThread.stop ⟨false, true, true, 0⟩ ∧
    pptDrop ⟨false, true, true, 0⟩ = ProducerPollingThread.stop ⟨false, true, true, 0⟩ := by
  have h := claim_C4 ⟨false, true, true, 0⟩ rfl
  exact ⟨h.1, h.2.1, h.2.2.1, h.2.2.2.1 3, h.2.2.2.2⟩

/-- C6: when the opaque token of a completion record maps to a live boxed
promise for channel `c`, the completion callback fulfills exactly that
channel with a `DeliveryStatus` whose three fields equal the `err`,
`partition` and `offset` fields of the native record, consumes the box
(the token's allocation is gone afterwards, so it cannot be redeemed
twice), and touches nothing else (the queue is unchanged). -/
theorem claim_C6 (w : World) (msg : MsgRecord) (c : Nat)
    (h : alookup w.heap msg.priv = some c) :
    alookup (prod_callback w msg).chans c
      = some (ChanState.fulfilled ⟨msg.err, msg.partition, msg.offset⟩) ∧
    alookup (prod_callback w msg).heap msg.priv = none ∧
    (prod_callback w msg).queue = w.queue := by
  unfold prod_callback
  simp only [h]
  exact ⟨alookup_aset_self w.chans c _, alookup_aremove_self w.heap msg.priv, trivial⟩

/-- C6 witness: a concrete completion record redeems its token. -/
theorem claim_C6_witness :
    alookup (prod_callback ⟨[(5, 0)], 6, [(0, ChanState.pending)], 1, []⟩
        ⟨7, 3, 42, 5⟩).chans 0
      = some (ChanState.fulfilled ⟨7, 3, 42⟩) ∧
    alookup (prod_callback ⟨[(5, 0)], 6, [(0, ChanState.pending)], 1, []⟩
        ⟨7, 3, 42, 5⟩).heap 5 = none := by
  have h := claim_C6 ⟨[(5, 0)], 6, [(0, ChanState.pending)], 1, []⟩ ⟨7, 3, 42, 5⟩ 0 rfl
  exact ⟨h.1, h.2.1⟩

/-- C7: in the native-call trace of `Client::new` with kind Producer,
every `rd_kafka_new` invocation sees the delivery callback already
registered in the configuration object and is preceded by the
`rd_kafka_conf_set_dr_msg_cb` call; with kind Consumer, no delivery
callback registration appears in the trace at all. -/
theorem claim_C7 (o : ClientOracle) (config : Config) :
    (∀ j b, (Client.new o config ClientType.Producer).2.get? j
        = some (NCall.kafkaNew b) →
      b = true ∧ NCall.confSetDrMsgCb
        ∈ (Client.new o config ClientType.Producer).2.take j) ∧
    NCall.confSetDrMsgCb ∉ (Client.new o config ClientType.Consumer).2 := by
  cases hcfg : Config.create_kafka_config o.conf config with
  | error e =>
    have hp := clientNew_conf_error o config ClientType.Producer e hcfg
    have hc := clientNew_conf_error o config ClientType.Consumer e hcfg
    constructor
    · intro j b hj
      rw [hp] at hj
      simp at hj
    · rw [hc]
      simp
  | ok pairs =>
    have hp := clientNew_snd_producer o config pairs hcfg
    have hc := clientNew_snd_consumer o config pairs hcfg
    constructor
    · intro j b hj
      rw [hp] at hj
      match j with
      | 0 => simp at hj
      | 1 =>
        refine ⟨?_, ?_⟩
        · have hinj : NCall.kafkaNew true = NCall.kafkaNew b := by
            simpa using hj
          cases hinj
          rfl
        · rw [hp]
          simp
      | n + 2 => simp at hj
    · rw [hc]
      simp

/-- C7 witness: concrete oracle and configuration. -/
theorem claim_C7_witness :
    NCall.confSetDrMsgCb
      ∈ (Client.new ⟨⟨fun _ _ => 0, fun _ _ => ""⟩, fun _ => true, ""⟩ ⟨[]⟩
          ClientType.Producer).2.take 1 ∧
    NCall.confSetDrMsgCb
      ∉ (Client.new ⟨⟨fun _ _ => 0, fun _ _ => ""⟩, fun _ => true, ""⟩ ⟨[]⟩
          ClientType.Consumer).2 := by
  have h := claim_C7 ⟨⟨fun _ _ => 0, fun _ _ => ""⟩, fun _ => true, ""⟩ ⟨[]⟩
  exact ⟨(h.1 1 true (by decide)).2, h.2⟩

/-- C8 counterexample: with a configuration pair the native layer rejects
and a native `rd_kafka_new` that always returns a non-null handle, client
creation fails — with a `Config` error, not `ClientCreation` — while the
native client-creation function is never even invoked (the call trace is
empty), refuting "creation fails if and only if the native layer returns
a null handle". -/
theorem claim_C8_counterexample :
    (Client.new ⟨⟨fun _ _ => -1, fun _ _ => "E"⟩, fun _ => true, "buf"⟩ ⟨[("k", "v")]⟩
        ClientType.Producer).1
      = Except.error (Error.Config (-1, "E", "k", "v")) ∧
    (Client.new ⟨⟨fun _ _ => -1, fun _ _ => "E"⟩, fun _ => true, "buf"⟩ ⟨[("k", "v")]⟩
        ClientType.Producer).2 = [] :=
  ⟨rfl, by decide⟩

/-- C8 (amended with: the configuration object is built successfully):
client creation fails exactly when the native layer returns a null handle,
and in that case the error is `ClientCreation` carrying the contents of
the native engine's error buffer. -/
theorem claim_C8_amended (o : ClientOracle) (config : Config) (t : ClientType)
    (pairs : List (String × String))
    (h : Config.create_kafka_config o.conf config = Except.ok pairs) :
    (o.kafkaNewOk t = false →
      (Client.new o config t).1 = Except.error (Error.ClientCreation o.errstrBuf)) ∧
    (o.kafkaNewOk t = true → ∀ e, (Client.new o config t).1 ≠ Except.error e) := by
  cases t with
  | Consumer =>
    refine ⟨?_, ?_⟩
    · intro hn
      unfold Client.new
      simp only [h]
      rw [if_neg (by rw [hn]; exact Bool.false_ne_true)]
    · intro hy e hcon
      unfold Client.new at hcon
      simp only [h] at hcon
      rw [if_pos hy] at hcon
      exact Except.noConfusion hcon
  | Producer =>
    refine ⟨?_, ?_⟩
    · intro hn
      unfold Client.new
      simp only [h]
      rw [if_neg (by rw [hn]; exact Bool.false_ne_true)]
    · intro hy e hcon
      unfold Client.new at hcon
      simp only [h] at hcon
      rw [if_pos hy] at hcon
      exact Except.noConfusion hcon

/-- C8 witness: null native handle yields `ClientCreation` with the
buffer contents. -/
theorem claim_C8_witness :
    (Client.new ⟨⟨fun _ _ => 0, fun _ _ => ""⟩, fun _ => false, "boom"⟩ ⟨[]⟩
        ClientType.Producer).1
      = Except.error (Error.ClientCreation "boom") :=
  (claim_C8_amended ⟨⟨fun _ _ => 0, fun _ _ => ""⟩, fun _ => false, "boom"⟩ ⟨[]⟩
      ClientType.Producer [] rfl).1 rfl

/-- C10: `stop()` is idempotent — after one `stop()` the handle is gone,
a second `stop()` (including the one `drop` performs) changes nothing, so
the worker thread is never joined twice; and `stop()` on a never-started
loop is the identity. -/
theorem claim_C10 (s : ProducerPollingThread) :
    ProducerPollingThread.stop (ProducerPollingThread.stop s)
      = ProducerPollingThread.stop s ∧
    (ProducerPollingThread.stop s).handle = false ∧
    pptDrop (ProducerPollingThread.stop s) = ProducerPollingThread.stop s ∧
    ProducerPollingThread.stop ProducerPollingThread.new = ProducerPollingThread.new := by
  obtain ⟨f, a, hd, p⟩ := s
  cases hd <;> cases a <;> exact ⟨rfl, rfl, rfl, rfl⟩

end RdKafka
